import Mathlib

set_option maxRecDepth 40000

/-!
Verification of Sia's EC key serialization, EC-Schnorr signatures, and HostDB construction.

This file is a shallow Lean embedding of:

* `crypto/eckey.go` — serialization, deserialization, compression and
  decompression of secp256k1 public/secret keys (byte-level model; `big.Int`
  values become `Nat`, byte slices become `List Nat` with entries `< 256`);
* `crypto/ecschnorr.go` — the EC-Schnorr sign/verify pair (group-level model;
  the external secp256k1 library is modelled, per the spec, as the cyclic
  group of prime order `N` generated by `G`, a point being represented by its
  discrete logarithm base `G`);
* `modules/renter/hostdb/hostdb.go` — the `New` constructor's nil-dependency
  checks and the bounded scan pool.

Go's `big.Int.Exp` (modular exponentiation) is embedded as the executable
square-and-multiply function `modExp`, proved equal to `x ^ e % p`.
-/

namespace Sia

/-- Big-endian interpretation of a byte slice as a natural number, modelling
Go's `new(big.Int).SetBytes(l)`. -/
def bytesToNat (l : List Nat) : Nat := l.foldl (fun acc b => acc * 256 + b) 0

/-- Fuel-driven helper for `natToBytes`; the fuel only bounds the recursion
depth, the result is fuel-independent for any fuel `≥ n`. -/
def natToBytesAux : Nat → Nat → List Nat
  | 0, _ => []
  | fuel + 1, n => if n = 0 then [] else natToBytesAux fuel (n / 256) ++ [n % 256]

/-- Minimal big-endian byte representation of a natural number, modelling
Go's `big.Int.Bytes()`: the empty slice for `0`, no leading zero byte
otherwise. -/
def natToBytes (n : Nat) : List Nat := natToBytesAux n n

theorem natToBytesAux_zero (fuel : Nat) : natToBytesAux fuel 0 = [] := by
  cases fuel <;> simp [natToBytesAux]

theorem natToBytesAux_irrel : ∀ f1 f2 n, n ≤ f1 → n ≤ f2 →
    natToBytesAux f1 n = natToBytesAux f2 n := by
  intro f1
  induction f1 with
  | zero =>
    intro f2 n h1 _
    have : n = 0 := Nat.le_zero.mp h1
    subst this
    simp [natToBytesAux_zero]
  | succ f ih =>
    intro f2 n h1 h2
    match n, f2 with
    | 0, _ => simp [natToBytesAux_zero]
    | n + 1, 0 => omega
    | n + 1, f2 + 1 =>
      have hdiv : (n + 1) / 256 < n + 1 := Nat.div_lt_self (Nat.succ_pos n) (by norm_num)
      simp only [natToBytesAux, if_neg (Nat.succ_ne_zero n)]
      rw [ih f2 ((n + 1) / 256) (by omega) (by omega)]

theorem natToBytes_eq (n : Nat) :
    natToBytes n = if n = 0 then [] else natToBytes (n / 256) ++ [n % 256] := by
  cases n with
  | zero => simp [natToBytes, natToBytesAux]
  | succ m =>
    have hdiv : (m + 1) / 256 < m + 1 := Nat.div_lt_self (Nat.succ_pos m) (by norm_num)
    simp only [natToBytes, natToBytesAux, if_neg (Nat.succ_ne_zero m)]
    rw [natToBytesAux_irrel m ((m + 1) / 256) ((m + 1) / 256) (by omega) le_rfl]

theorem natToBytes_zero : natToBytes 0 = [] := rfl

theorem bytesToNat_nil : bytesToNat [] = 0 := rfl

theorem bytesToNat_snoc (l : List Nat) (b : Nat) :
    bytesToNat (l ++ [b]) = bytesToNat l * 256 + b := by
  simp [bytesToNat, List.foldl_append]

theorem bytesToNat_replicate_zero_append (k : Nat) (l : List Nat) :
    bytesToNat (List.replicate k 0 ++ l) = bytesToNat l := by
  have hz : ∀ j, bytesToNat (List.replicate j 0) = 0 := by
    intro j
    induction j with
    | zero => rfl
    | succ j ih =>
      rw [List.replicate_succ]
      simpa [bytesToNat, List.foldl_cons] using ih
  simp only [bytesToNat, List.foldl_append]
  have := hz k
  simp only [bytesToNat] at this
  rw [this]

theorem bytesToNat_natToBytes (n : Nat) : bytesToNat (natToBytes n) = n := by
  induction n using Nat.strong_induction_on with
  | _ n ih =>
    rw [natToBytes_eq]
    by_cases h : n = 0
    · simp [h, bytesToNat]
    · rw [if_neg h]
      have hlt : n / 256 < n := Nat.div_lt_self (Nat.pos_of_ne_zero h) (by norm_num)
      rw [bytesToNat_snoc, ih _ hlt]
      omega

theorem natToBytes_length_le : ∀ n k, n < 256 ^ k → (natToBytes n).length ≤ k := by
  intro n
  induction n using Nat.strong_induction_on with
  | _ n ih =>
    intro k hk
    rw [natToBytes_eq]
    by_cases h : n = 0
    · simp [h]
    · rw [if_neg h]
      cases k with
      | zero =>
        exfalso
        simp only [pow_zero] at hk
        omega
      | succ k =>
        simp only [List.length_append, List.length_cons, List.length_nil]
        have hlt : n / 256 < n := Nat.div_lt_self (Nat.pos_of_ne_zero h) (by norm_num)
        have hdiv : n / 256 < 256 ^ k := by
          rw [Nat.div_lt_iff_lt_mul (by norm_num : 0 < 256)]
          calc n < 256 ^ (k + 1) := hk
            _ = 256 ^ k * 256 := by rw [pow_succ]
        have := ih _ hlt k hdiv
        omega

theorem natToBytes_bytes_lt : ∀ n, ∀ b ∈ natToBytes n, b < 256 := by
  intro n
  induction n using Nat.strong_induction_on with
  | _ n ih =>
    intro b hb
    rw [natToBytes_eq] at hb
    by_cases h : n = 0
    · simp [h] at hb
    · rw [if_neg h] at hb
      have hlt : n / 256 < n := Nat.div_lt_self (Nat.pos_of_ne_zero h) (by norm_num)
      rcases List.mem_append.mp hb with h1 | h2
      · exact ih _ hlt b h1
      · have : b = n % 256 := List.mem_singleton.mp h2
        subst this
        exact Nat.mod_lt _ (by norm_num)

theorem natToBytes_getLast (n : Nat) (h : n ≠ 0) :
    (natToBytes n).getLast? = some (n % 256) := by
  rw [natToBytes_eq, if_neg h, List.getLast?_concat]

theorem natToBytes_ne_nil (n : Nat) (h : n ≠ 0) : natToBytes n ≠ [] := by
  rw [natToBytes_eq, if_neg h]
  simp

/-- Model of the `pad` helper of `eckey.go`: keep the last `size` bytes when
the input is at least that long, otherwise left-pad with zero bytes (a `nil`
input yields `size` zero bytes, which coincides with the second branch). -/
def pad (bytes : List Nat) (size : Nat) : List Nat :=
  if size ≤ bytes.length then bytes.drop (bytes.length - size)
  else List.replicate (size - bytes.length) 0 ++ bytes

theorem pad_length (l : List Nat) (s : Nat) : (pad l s).length = s := by
  unfold pad
  split
  · simp only [List.length_drop]
    omega
  · simp only [List.length_append, List.length_replicate]
    omega

theorem pad_of_le (l : List Nat) (s : Nat) (h : l.length ≤ s) :
    pad l s = List.replicate (s - l.length) 0 ++ l := by
  unfold pad
  split
  · have : l.length = s := le_antisymm h (by assumption)
    simp [this]
  · rfl

theorem bytesToNat_pad (l : List Nat) (s : Nat) (h : l.length ≤ s) :
    bytesToNat (pad l s) = bytesToNat l := by
  rw [pad_of_le l s h, bytesToNat_replicate_zero_append]

/-- Fuel-driven square-and-multiply; the fuel only bounds the recursion depth
(any fuel `≥ e` gives the same result). -/
def modExpAux : Nat → Nat → Nat → Nat → Nat
  | 0, _, _, p => 1 % p
  | fuel + 1, x, e, p =>
    if e = 0 then 1 % p
    else
      let r := modExpAux fuel (x * x % p) (e / 2) p
      if e % 2 = 1 then r * x % p else r

/-- Executable modular exponentiation `x ^ e % p`, modelling Go's
`big.Int.Exp(x, e, p)` (see `modExp_spec`). -/
def modExp (x e p : Nat) : Nat := modExpAux e x e p

theorem modExpAux_spec : ∀ fuel x e p, e ≤ fuel → modExpAux fuel x e p = x ^ e % p := by
  intro fuel
  induction fuel with
  | zero =>
    intro x e p h
    have : e = 0 := Nat.le_zero.mp h
    subst this
    simp [modExpAux]
  | succ f ih =>
    intro x e p h
    by_cases he : e = 0
    · subst he
      simp [modExpAux]
    · have hdiv : e / 2 < e := Nat.div_lt_self (Nat.pos_of_ne_zero he) (by norm_num)
      have hrec : modExpAux f (x * x % p) (e / 2) p = (x * x % p) ^ (e / 2) % p :=
        ih (x * x % p) (e / 2) p (by omega)
      have hpow : (x * x % p) ^ (e / 2) % p = x ^ (2 * (e / 2)) % p := by
        rw [← Nat.pow_mod, ← pow_two, ← pow_mul]
      simp only [modExpAux, if_neg he]
      rw [hrec, hpow]
      by_cases hodd : e % 2 = 1
      · rw [if_pos hodd, Nat.mod_mul_mod, ← pow_succ]
        have : 2 * (e / 2) + 1 = e := by omega
        rw [this]
      · rw [if_neg hodd]
        have : 2 * (e / 2) = e := by omega
        rw [this]

theorem modExp_spec (x e p : Nat) : modExp x e p = x ^ e % p :=
  modExpAux_spec e x e p le_rfl

theorem modExp_lt (x e p : Nat) (hp : 0 < p) : modExp x e p < p := by
  rw [modExp_spec]
  exact Nat.mod_lt _ hp

namespace ECKey

/-- Number of bytes used to store an secp256k1 coordinate. -/
def ECCoordinateSize : Nat := 32

/-- Header byte of a compressed EC point with even Y. -/
def ECHeaderCompressedEven : Nat := 0x02

/-- Header byte of a compressed EC point with odd Y. -/
def ECHeaderCompressedOdd : Nat := 0x03

/-- Header byte of an uncompressed EC point. -/
def ECHeaderUncompressed : Nat := 0x04

/-- Header byte of a serialized EC secret key. -/
def ECHeaderSerializedSecret : Nat := 0x08

/-- The secp256k1 field prime `s256.P` of the external curve library
(2 ^ 256 - 2 ^ 32 - 977). -/
def P : Nat := 115792089237316195423570985008687907853269984665640564039457584007908834671663

/-- The secp256k1 curve constant `s256.B`. -/
def B : Nat := 7

/-- The exponent `bigThree` of the curve equation. -/
def bigThree : Nat := 3

/-- The square-root exponent constant of `eckey.go`, equal to `(P + 1) / 4`. -/
def sqRootExp : Nat := 28948022309329048855892746252171976963317496166410141009864396001977208667916

/-- The `(X, Y)` point stored in Go's `ECPublic` (two nonnegative `big.Int`s;
nothing constrains them to lie on the curve). -/
structure ECPublic where
  X : Nat
  Y : Nat
deriving DecidableEq

/-- Go's `ECSecret`: an embedded `ECPublic` plus the secret scalar `R`. -/
structure ECSecret where
  X : Nat
  Y : Nat
  R : Nat
deriving DecidableEq

/-- The distinct error values of `eckey.go`. -/
inductive ECKeyError where
  | errInvalidCompressedPublic
  | errInvalidSerializedPublic
  | errInvalidSerializedSecret
deriving DecidableEq

/-- Model of `ECPublic.Serialize`: header `0x04` followed by the two
32-byte-padded coordinates. -/
def ECPublic.Serialize (pub : ECPublic) : List Nat :=
  ECHeaderUncompressed ::
    (pad (natToBytes pub.X) ECCoordinateSize ++ pad (natToBytes pub.Y) ECCoordinateSize)

/-- Model of `DeserializeECPublic`. A `nil` slice has length `0 ≠ 65`, so the
Go `data == nil` disjunct is subsumed by the length test. -/
def DeserializeECPublic (data : List Nat) : Except ECKeyError ECPublic :=
  if data.length ≠ 1 + 2 * ECCoordinateSize then .error .errInvalidSerializedPublic
  else if data.headD 0 ≠ ECHeaderUncompressed then .error .errInvalidSerializedPublic
  else .ok { X := bytesToNat ((data.drop 1).take ECCoordinateSize),
             Y := bytesToNat (data.drop (1 + ECCoordinateSize)) }

/-- Model of `ECSecret.Serialize`: header `0x08` followed by the 32-byte-padded
secret scalar. -/
def ECSecret.Serialize (sec : ECSecret) : List Nat :=
  ECHeaderSerializedSecret :: pad (natToBytes sec.R) ECCoordinateSize

/-- Model of `DeserializeECSecret`, returning the decoded secret scalar `R`.
The Go function additionally derives the public point through the external
curve library (`ComputeECPublic`); that derivation cannot fail and is
irrelevant to the decoder's error behaviour, so it is omitted here. -/
def DeserializeECSecret (data : List Nat) : Except ECKeyError Nat :=
  if data.length ≠ 1 + ECCoordinateSize then .error .errInvalidSerializedSecret
  else if data.headD 0 ≠ ECHeaderSerializedSecret then .error .errInvalidSerializedSecret
  else .ok (bytesToNat (data.drop 1))

/-- Model of `bigIntParity`: Go indexes the last byte of `i.Bytes()`, which
panics (index `-1`) when the byte slice is empty, i.e. when `i = 0`; the
panic is modelled as `none`. -/
def bigIntParity (i : Nat) : Option Nat :=
  match (natToBytes i).getLast? with
  | none => none
  | some b => some (b % 2)

/-- Model of `ECPublic.Compress`; `none` models the `bigIntParity` panic. -/
def ECPublic.Compress (pub : ECPublic) : Option (List Nat) :=
  match bigIntParity pub.Y with
  | none => none
  | some parity =>
    let header := if parity = 0 then ECHeaderCompressedEven else ECHeaderCompressedOdd
    some (header :: pad (natToBytes pub.X) ECCoordinateSize)

/-- Model of `UncompressECPublic`; the outer `none` models the `bigIntParity`
panic, `some (.error _)` the returned error, `some (.ok _)` success.
`big.Int.Exp` is embedded as `modExp` (see `modExp_spec`). -/
def uncompressCandidate (x : Nat) : Nat :=
  modExp ((modExp x bigThree P + B) % P) sqRootExp P

def UncompressECPublic (data : List Nat) : Option (Except ECKeyError ECPublic) :=
  if data.length ≠ 1 + ECCoordinateSize then some (.error .errInvalidCompressedPublic)
  else if data.headD 0 ≠ ECHeaderCompressedEven ∧ data.headD 0 ≠ ECHeaderCompressedOdd then
    some (.error .errInvalidCompressedPublic)
  else
    match bigIntParity (uncompressCandidate (bytesToNat (data.drop 1))) with
    | none => none
    | some yParity =>
      some (.ok { X := bytesToNat (data.drop 1),
                  Y := if Nat.xor yParity (data.headD 0 % 2) ≠ 0 then
                         (P - uncompressCandidate (bytesToNat (data.drop 1))) % P
                       else uncompressCandidate (bytesToNat (data.drop 1)) })

/-! ### Primality certificate for the field prime `P`

A Pratt/Lucas certificate chain: `P - 1 = 2 · 3 · 7 · 13441 · c`,
`c - 1 = 2 · 3 · 5 · 29² · 31 · 7723 · f · g`, `f - 1 = 2 · 3 · h`,
`g - 1 = 2³ · 7² · 11 · 1627 · 2657 · 4423 · 41201 · 96557 · 7240687 · 107590001`,
`h - 1 = 2³ · 3 · 5323 · k`, `k - 1 = 2³ · 5² · 2621 · 24809 · 13331831`.
All modular-power side conditions are discharged by kernel evaluation of
`modExp`. -/

theorem zmod_natCast_modExp (a e n : Nat) :
    ((modExp a e n : Nat) : ZMod n) = (a : ZMod n) ^ e := by
  rw [modExp_spec, ZMod.natCast_mod, Nat.cast_pow]

theorem pow_eq_one_of_modExp (a e n : Nat) (h : modExp a e n = 1) :
    (a : ZMod n) ^ e = 1 := by
  rw [← zmod_natCast_modExp a e n, h, Nat.cast_one]

theorem pow_ne_one_of_modExp (a e n : Nat) (hn : 1 < n) (h : modExp a e n ≠ 1) :
    (a : ZMod n) ^ e ≠ 1 := by
  intro heq
  haveI : NeZero n := ⟨by omega⟩
  haveI : Fact (1 < n) := ⟨hn⟩
  have hcast : ((modExp a e n : Nat) : ZMod n) = 1 := by
    rw [zmod_natCast_modExp]
    exact heq
  have hval := congrArg ZMod.val hcast
  rw [ZMod.val_natCast_of_lt (modExp_lt a e n (by omega)), ZMod.val_one] at hval
  exact h hval

theorem lucas_helper (n a : Nat) (hn : 1 < n)
    (h1 : modExp a (n - 1) n = 1)
    (hq : ∀ q : Nat, q.Prime → q ∣ n - 1 → modExp a ((n - 1) / q) n ≠ 1) :
    Nat.Prime n :=
  lucas_primality n (a : ZMod n) (pow_eq_one_of_modExp a (n - 1) n h1)
    (fun q hq1 hdvd => pow_ne_one_of_modExp a ((n - 1) / q) n hn (hq q hq1 hdvd))

theorem prime_eq_of_dvd (q p : Nat) (hq : q.Prime) (hp : p.Prime) (h : q ∣ p) : q = p :=
  (Nat.prime_dvd_prime_iff_eq hq hp).mp h

theorem prime_107590001 : Nat.Prime 107590001 := by
  refine lucas_helper _ 3 (by norm_num) (by decide) ?_
  intro q hq hdvd
  have hdvd2 : q ∣ 2 * (2 * (2 * (2 * (5 * (5 * (5 * (5 * (7 * (29 * (53)))))))))) := by
    rwa [show (2 * (2 * (2 * (2 * (5 * (5 * (5 * (5 * (7 * (29 * (53)))))))))) : Nat) = 107590001 - 1 from by norm_num]
  rcases (Nat.Prime.dvd_mul hq).mp hdvd2 with h | h
  · rw [prime_eq_of_dvd _ _ hq (by norm_num) h]; decide
  rcases (Nat.Prime.dvd_mul hq).mp h with h | h
  · rw [prime_eq_of_dvd _ _ hq (by norm_num) h]; decide
  rcases (Nat.Prime.dvd_mul hq).mp h with h | h
  · rw [prime_eq_of_dvd _ _ hq (by norm_num) h]; decide
  rcases (Nat.Prime.dvd_mul hq).mp h with h | h
  · rw [prime_eq_of_dvd _ _ hq (by norm_num) h]; decide
  rcases (Nat.Prime.dvd_mul hq).mp h with h | h
  · rw [prime_eq_of_dvd _ _ hq (by norm_num) h]; decide
  rcases (Nat.Prime.dvd_mul hq).mp h with h | h
  · rw [prime_eq_of_dvd _ _ hq (by norm_num) h]; decide
  rcases (Nat.Prime.dvd_mul hq).mp h with h | h
  · rw [prime_eq_of_dvd _ _ hq (by norm_num) h]; decide
  rcases (Nat.Prime.dvd_mul hq).mp h with h | h
  · rw [prime_eq_of_dvd _ _ hq (by norm_num) h]; decide
  rcases (Nat.Prime.dvd_mul hq).mp h with h | h
  · rw [prime_eq_of_dvd _ _ hq (by norm_num) h]; decide
  rcases (Nat.Prime.dvd_mul hq).mp h with h | h
  · rw [prime_eq_of_dvd _ _ hq (by norm_num) h]; decide
  · rw [prime_eq_of_dvd _ _ hq (by norm_num) h]; decide

theorem prime_13331831 : Nat.Prime 13331831 := by
  refine lucas_helper _ 13 (by norm_num) (by decide) ?_
  intro q hq hdvd
  have hdvd2 : q ∣ 2 * (5 * (971 * (1373))) := by
    rwa [show (2 * (5 * (971 * (1373))) : Nat) = 13331831 - 1 from by norm_num]
  rcases (Nat.Prime.dvd_mul hq).mp hdvd2 with h | h
  · rw [prime_eq_of_dvd _ _ hq (by norm_num) h]; decide
  rcases (Nat.Prime.dvd_mul hq).mp h with h | h
  · rw [prime_eq_of_dvd _ _ hq (by norm_num) h]; decide
  rcases (Nat.Prime.dvd_mul hq).mp h with h | h
  · rw [prime_eq_of_dvd _ _ hq (by norm_num) h]; decide
  · rw [prime_eq_of_dvd _ _ hq (by norm_num) h]; decide

theorem prime_7240687 : Nat.Prime 7240687 := by
  refine lucas_helper _ 3 (by norm_num) (by decide) ?_
  intro q hq hdvd
  have hdvd2 : q ∣ 2 * (3 * (1206781)) := by
    rwa [show (2 * (3 * (1206781)) : Nat) = 7240687 - 1 from by norm_num]
  rcases (Nat.Prime.dvd_mul hq).mp hdvd2 with h | h
  · rw [prime_eq_of_dvd _ _ hq (by norm_num) h]; decide
  rcases (Nat.Prime.dvd_mul hq).mp h with h | h
  · rw [prime_eq_of_dvd _ _ hq (by norm_num) h]; decide
  · rw [prime_eq_of_dvd _ _ hq (by norm_num) h]; decide

theorem prime_k17 : Nat.Prime 173378833005251801 := by
  refine lucas_helper _ 6 (by norm_num) (by decide) ?_
  intro q hq hdvd
  have hdvd2 : q ∣ 2 * (2 * (2 * (5 * (5 * (2621 * (24809 * 13331831)))))) := by
    rwa [show (2 * (2 * (2 * (5 * (5 * (2621 * (24809 * 13331831)))))) : Nat)
      = 173378833005251801 - 1 from by norm_num]
  rcases (Nat.Prime.dvd_mul hq).mp hdvd2 with h | h
  · rw [prime_eq_of_dvd _ _ hq (by norm_num) h]; decide
  rcases (Nat.Prime.dvd_mul hq).mp h with h | h
  · rw [prime_eq_of_dvd _ _ hq (by norm_num) h]; decide
  rcases (Nat.Prime.dvd_mul hq).mp h with h | h
  · rw [prime_eq_of_dvd _ _ hq (by norm_num) h]; decide
  rcases (Nat.Prime.dvd_mul hq).mp h with h | h
  · rw [prime_eq_of_dvd _ _ hq (by norm_num) h]; decide
  rcases (Nat.Prime.dvd_mul hq).mp h with h | h
  · rw [prime_eq_of_dvd _ _ hq (by norm_num) h]; decide
  rcases (Nat.Prime.dvd_mul hq).mp h with h | h
  · rw [prime_eq_of_dvd _ _ hq (by norm_num) h]; decide
  rcases (Nat.Prime.dvd_mul hq).mp h with h | h
  · rw [prime_eq_of_dvd _ _ hq (by norm_num) h]; decide
  · rw [prime_eq_of_dvd _ _ hq prime_13331831 h]; decide

theorem prime_h22 : Nat.Prime 22149492674086928081353 := by
  refine lucas_helper _ 5 (by norm_num) (by decide) ?_
  intro q hq hdvd
  have hdvd2 : q ∣ 2 * (2 * (2 * (3 * (5323 * (173378833005251801))))) := by
    rwa [show (2 * (2 * (2 * (3 * (5323 * (173378833005251801))))) : Nat)
      = 22149492674086928081353 - 1 from by norm_num]
  rcases (Nat.Prime.dvd_mul hq).mp hdvd2 with h | h
  · rw [prime_eq_of_dvd _ _ hq (by norm_num) h]; decide
  rcases (Nat.Prime.dvd_mul hq).mp h with h | h
  · rw [prime_eq_of_dvd _ _ hq (by norm_num) h]; decide
  rcases (Nat.Prime.dvd_mul hq).mp h with h | h
  · rw [prime_eq_of_dvd _ _ hq (by norm_num) h]; decide
  rcases (Nat.Prime.dvd_mul hq).mp h with h | h
  · rw [prime_eq_of_dvd _ _ hq (by norm_num) h]; decide
  rcases (Nat.Prime.dvd_mul hq).mp h with h | h
  · rw [prime_eq_of_dvd _ _ hq (by norm_num) h]; decide
  · rw [prime_eq_of_dvd _ _ hq (prime_k17) h]; decide

theorem prime_f13 : Nat.Prime 132896956044521568488119 := by
  refine lucas_helper _ 6 (by norm_num) (by decide) ?_
  intro q hq hdvd
  have hdvd2 : q ∣ 2 * (3 * (22149492674086928081353)) := by
    rwa [show (2 * (3 * (22149492674086928081353)) : Nat)
      = 132896956044521568488119 - 1 from by norm_num]
  rcases (Nat.Prime.dvd_mul hq).mp hdvd2 with h | h
  · rw [prime_eq_of_dvd _ _ hq (by norm_num) h]; decide
  rcases (Nat.Prime.dvd_mul hq).mp h with h | h
  · rw [prime_eq_of_dvd _ _ hq (by norm_num) h]; decide
  · rw [prime_eq_of_dvd _ _ hq (prime_h22) h]; decide

theorem prime_g25 : Nat.Prime 255515944373312847190720520512484175977 := by
  refine lucas_helper _ 3 (by norm_num) (by decide) ?_
  intro q hq hdvd
  have hdvd2 : q ∣ 2 * (2 * (2 * (7 * (7 * (11 * (1627 * (2657 * (4423 * (41201 * (96557 * (7240687 * (107590001)))))))))))) := by
    rwa [show (2 * (2 * (2 * (7 * (7 * (11 * (1627 * (2657 * (4423 * (41201 * (96557 * (7240687 * (107590001)))))))))))) : Nat)
      = 255515944373312847190720520512484175977 - 1 from by norm_num]
  rcases (Nat.Prime.dvd_mul hq).mp hdvd2 with h | h
  · rw [prime_eq_of_dvd _ _ hq (by norm_num) h]; decide
  rcases (Nat.Prime.dvd_mul hq).mp h with h | h
  · rw [prime_eq_of_dvd _ _ hq (by norm_num) h]; decide
  rcases (Nat.Prime.dvd_mul hq).mp h with h | h
  · rw [prime_eq_of_dvd _ _ hq (by norm_num) h]; decide
  rcases (Nat.Prime.dvd_mul hq).mp h with h | h
  · rw [prime_eq_of_dvd _ _ hq (by norm_num) h]; decide
  rcases (Nat.Prime.dvd_mul hq).mp h with h | h
  · rw [prime_eq_of_dvd _ _ hq (by norm_num) h]; decide
  rcases (Nat.Prime.dvd_mul hq).mp h with h | h
  · rw [prime_eq_of_dvd _ _ hq (by norm_num) h]; decide
  rcases (Nat.Prime.dvd_mul hq).mp h with h | h
  · rw [prime_eq_of_dvd _ _ hq (by norm_num) h]; decide
  rcases (Nat.Prime.dvd_mul hq).mp h with h | h
  · rw [prime_eq_of_dvd _ _ hq (by norm_num) h]; decide
  rcases (Nat.Prime.dvd_mul hq).mp h with h | h
  · rw [prime_eq_of_dvd _ _ hq (by norm_num) h]; decide
  rcases (Nat.Prime.dvd_mul hq).mp h with h | h
  · rw [prime_eq_of_dvd _ _ hq (by norm_num) h]; decide
  rcases (Nat.Prime.dvd_mul hq).mp h with h | h
  · rw [prime_eq_of_dvd _ _ hq (by norm_num) h]; decide
  rcases (Nat.Prime.dvd_mul hq).mp h with h | h
  · rw [prime_eq_of_dvd _ _ hq prime_7240687 h]; decide
  · rw [prime_eq_of_dvd _ _ hq prime_107590001 h]; decide

theorem prime_c20 : Nat.Prime 205115282021455665897114700593932402728804164701536103180137503955397371 := by
  refine lucas_helper _ 10 (by norm_num) (by decide) ?_
  intro q hq hdvd
  have hdvd2 : q ∣ 2 * (3 * (5 * (29 * (29 * (31 * (7723 * (132896956044521568488119 * (255515944373312847190720520512484175977)))))))) := by
    rwa [show (2 * (3 * (5 * (29 * (29 * (31 * (7723 * (132896956044521568488119 * (255515944373312847190720520512484175977)))))))) : Nat)
      = 205115282021455665897114700593932402728804164701536103180137503955397371 - 1 from by norm_num]
  rcases (Nat.Prime.dvd_mul hq).mp hdvd2 with h | h
  · rw [prime_eq_of_dvd _ _ hq (by norm_num) h]; decide
  rcases (Nat.Prime.dvd_mul hq).mp h with h | h
  · rw [prime_eq_of_dvd _ _ hq (by norm_num) h]; decide
  rcases (Nat.Prime.dvd_mul hq).mp h with h | h
  · rw [prime_eq_of_dvd _ _ hq (by norm_num) h]; decide
  rcases (Nat.Prime.dvd_mul hq).mp h with h | h
  · rw [prime_eq_of_dvd _ _ hq (by norm_num) h]; decide
  rcases (Nat.Prime.dvd_mul hq).mp h with h | h
  · rw [prime_eq_of_dvd _ _ hq (by norm_num) h]; decide
  rcases (Nat.Prime.dvd_mul hq).mp h with h | h
  · rw [prime_eq_of_dvd _ _ hq (by norm_num) h]; decide
  rcases (Nat.Prime.dvd_mul hq).mp h with h | h
  · rw [prime_eq_of_dvd _ _ hq (by norm_num) h]; decide
  rcases (Nat.Prime.dvd_mul hq).mp h with h | h
  · rw [prime_eq_of_dvd _ _ hq (prime_f13) h]; decide
  · rw [prime_eq_of_dvd _ _ hq (prime_g25) h]; decide

theorem P_prime_raw : Nat.Prime 115792089237316195423570985008687907853269984665640564039457584007908834671663 := by
  refine lucas_helper _ 3 (by norm_num) (by decide) ?_
  intro q hq hdvd
  have hdvd2 : q ∣ 2 * (3 * (7 * (13441 * (205115282021455665897114700593932402728804164701536103180137503955397371)))) := by
    rwa [show (2 * (3 * (7 * (13441 * (205115282021455665897114700593932402728804164701536103180137503955397371)))) : Nat)
      = 115792089237316195423570985008687907853269984665640564039457584007908834671663 - 1 from by norm_num]
  rcases (Nat.Prime.dvd_mul hq).mp hdvd2 with h | h
  · rw [prime_eq_of_dvd _ _ hq (by norm_num) h]; decide
  rcases (Nat.Prime.dvd_mul hq).mp h with h | h
  · rw [prime_eq_of_dvd _ _ hq (by norm_num) h]; decide
  rcases (Nat.Prime.dvd_mul hq).mp h with h | h
  · rw [prime_eq_of_dvd _ _ hq (by norm_num) h]; decide
  rcases (Nat.Prime.dvd_mul hq).mp h with h | h
  · rw [prime_eq_of_dvd _ _ hq (by norm_num) h]; decide
  · rw [prime_eq_of_dvd _ _ hq (prime_c20) h]; decide

/-- The secp256k1 field prime is prime (Pratt chain certified by Lucas's
theorem at every level). -/
theorem P_prime : Nat.Prime P := P_prime_raw

instance P_fact_prime : Fact (Nat.Prime P) := ⟨P_prime⟩

theorem bigIntParity_zero : bigIntParity 0 = none := rfl

theorem bigIntParity_pos (i : Nat) (h : i ≠ 0) : bigIntParity i = some (i % 2) := by
  unfold bigIntParity
  rw [natToBytes_getLast i h]
  have h256 : i % 256 % 2 = i % 2 := Nat.mod_mod_of_dvd i (by norm_num)
  simp [h256]

theorem hP_pos : 0 < P := by norm_num [P]

/-- Minus seven is not a cube modulo the field prime: for no natural `x` does
`x ^ 3 + B` vanish mod `P` (so the curve equation RHS never vanishes). -/
theorem neg7_not_cube (x : Nat) : (x ^ 3 + B) % P ≠ 0 := by
  intro h
  have hdvd : P ∣ x ^ 3 + B := Nat.dvd_of_mod_eq_zero h
  have hz : (x : ZMod P) ^ 3 + 7 = 0 := by
    have hc : (((x ^ 3 + B : ℕ)) : ZMod P) = 0 :=
      (ZMod.natCast_zmod_eq_zero_iff_dvd _ _).mpr hdvd
    simp only [B] at hc
    push_cast at hc
    exact hc
  have hx0 : (x : ZMod P) ≠ 0 := by
    intro h0
    rw [h0] at hz
    have h7 : ((7 : ℕ) : ZMod P) = 0 := by
      simpa using hz
    have : P ∣ 7 := (ZMod.natCast_zmod_eq_zero_iff_dvd _ _).mp h7
    have := Nat.le_of_dvd (by norm_num) this
    revert this
    norm_num [P]
  have hcube : ((P - 7 : ℕ) : ZMod P) = (x : ZMod P) ^ 3 := by
    rw [Nat.cast_sub (by norm_num [P] : (7 : ℕ) ≤ P), ZMod.natCast_self]
    push_cast
    linear_combination -hz
  have hferm : ((P - 7 : ℕ) : ZMod P) ^ ((P - 1) / 3) = 1 := by
    rw [hcube, ← pow_mul]
    have h3 : 3 * ((P - 1) / 3) = P - 1 := by norm_num [P]
    rw [h3]
    exact ZMod.pow_card_sub_one_eq_one hx0
  exact pow_ne_one_of_modExp (P - 7) ((P - 1) / 3) P (by norm_num [P]) (by decide) hferm

/-- The square-root candidate computed by `UncompressECPublic` is never zero,
because `x ^ 3 + B` never vanishes mod `P`. -/
theorem sqrt_candidate_ne_zero (x : Nat) : uncompressCandidate x ≠ 0 := by
  rw [uncompressCandidate]
  intro h0
  have hyt : (modExp x bigThree P + B) % P = (x ^ 3 + B) % P := by
    rw [modExp_spec, bigThree, Nat.mod_add_mod]
  rw [hyt, modExp_spec] at h0
  have hdvd : P ∣ ((x ^ 3 + B) % P) ^ sqRootExp := Nat.dvd_of_mod_eq_zero h0
  have hbase : P ∣ (x ^ 3 + B) % P := P_prime.dvd_of_dvd_pow hdvd
  have hlt : (x ^ 3 + B) % P < P := Nat.mod_lt _ hP_pos
  exact neg7_not_cube x (Nat.eq_zero_of_dvd_of_lt hbase hlt)

theorem serialize_length (pub : ECPublic) : pub.Serialize.length = 65 := by
  simp [ECPublic.Serialize, pad_length, ECCoordinateSize]

theorem serialize_drop_one (pub : ECPublic) :
    pub.Serialize.drop 1 =
      pad (natToBytes pub.X) ECCoordinateSize ++ pad (natToBytes pub.Y) ECCoordinateSize := rfl

theorem serialize_take_x (pub : ECPublic) :
    (pub.Serialize.drop 1).take 32 = pad (natToBytes pub.X) ECCoordinateSize := by
  rw [serialize_drop_one]
  exact List.take_left' (pad_length _ _)

theorem serialize_drop_y (pub : ECPublic) :
    pub.Serialize.drop 33 = pad (natToBytes pub.Y) ECCoordinateSize := by
  have h : pub.Serialize.drop 33 = (pub.Serialize.drop 1).drop 32 := by
    rw [List.drop_drop]
  rw [h, serialize_drop_one]
  exact List.drop_left' (pad_length _ _)

theorem bytesToNat_pad_natToBytes (n s : Nat) (h : n < 256 ^ s) :
    bytesToNat (pad (natToBytes n) s) = n := by
  rw [bytesToNat_pad _ _ (natToBytes_length_le n s h), bytesToNat_natToBytes]

theorem deserialize_serialize (pub : ECPublic)
    (hX : pub.X < 256 ^ 32) (hY : pub.Y < 256 ^ 32) :
    DeserializeECPublic pub.Serialize = .ok pub := by
  have hlen : pub.Serialize.length = 1 + 2 * ECCoordinateSize := serialize_length pub
  have hhead : pub.Serialize.headD 0 = ECHeaderUncompressed := rfl
  rw [DeserializeECPublic, if_neg (by rw [hlen]; exact fun h => h rfl),
    if_neg (by rw [hhead]; exact fun h => h rfl)]
  have hx := serialize_take_x pub
  have hy := serialize_drop_y pub
  simp only [ECCoordinateSize] at hx hy ⊢
  rw [show (1 + 32 : Nat) = 33 from rfl, hx, hy,
    bytesToNat_pad_natToBytes _ _ hX, bytesToNat_pad_natToBytes _ _ hY]

/-- C4: for every point whose coordinates fit in 32 bytes,
`DeserializeECPublic (pub.Serialize)` succeeds and returns a point with the
same X and Y. -/
theorem C4_serialize_deserialize_roundtrip (pub : ECPublic)
    (hX : pub.X < 256 ^ 32) (hY : pub.Y < 256 ^ 32) :
    DeserializeECPublic pub.Serialize = .ok pub :=
  deserialize_serialize pub hX hY

/-- C4 witness at the concrete point (1, 2). -/
theorem C4_witness :
    DeserializeECPublic (ECPublic.Serialize ⟨1, 2⟩) = .ok ⟨1, 2⟩ :=
  C4_serialize_deserialize_roundtrip ⟨1, 2⟩ (by norm_num) (by norm_num)

/-- C5: serialization is 65 bytes, header `0x04`, then the 32-byte big-endian
left-zero-padded X and Y; the coordinate value 1 pads to 31 zero bytes
followed by `0x01`. -/
theorem C5_serialize_layout (pub : ECPublic)
    (hX : pub.X < 256 ^ 32) (hY : pub.Y < 256 ^ 32) :
    pub.Serialize.length = 65 ∧
    pub.Serialize.headD 0 = ECHeaderUncompressed ∧
    (pub.Serialize.drop 1).take 32 =
      List.replicate (32 - (natToBytes pub.X).length) 0 ++ natToBytes pub.X ∧
    pub.Serialize.drop 33 =
      List.replicate (32 - (natToBytes pub.Y).length) 0 ++ natToBytes pub.Y ∧
    bytesToNat ((pub.Serialize.drop 1).take 32) = pub.X ∧
    bytesToNat (pub.Serialize.drop 33) = pub.Y ∧
    pad (natToBytes 1) 32 = List.replicate 31 0 ++ [1] := by
  refine ⟨serialize_length pub, rfl, ?_, ?_, ?_, ?_, ?_⟩
  · rw [serialize_take_x]
    simp only [ECCoordinateSize]
    rw [pad_of_le _ _ (natToBytes_length_le _ _ hX)]
  · rw [serialize_drop_y]
    simp only [ECCoordinateSize]
    rw [pad_of_le _ _ (natToBytes_length_le _ _ hY)]
  · rw [serialize_take_x]
    exact bytesToNat_pad_natToBytes _ _ hX
  · rw [serialize_drop_y]
    exact bytesToNat_pad_natToBytes _ _ hY
  · rfl

/-- The panic modelled in `UncompressECPublic` is unreachable: the square-root
candidate handed to `bigIntParity` is never zero. -/
theorem uncompress_never_panics (data : List Nat) : UncompressECPublic data ≠ none := by
  rw [UncompressECPublic]
  by_cases h1 : data.length ≠ 1 + ECCoordinateSize
  · rw [if_pos h1]
    simp
  · rw [if_neg h1]
    by_cases h2 : data.headD 0 ≠ ECHeaderCompressedEven ∧ data.headD 0 ≠ ECHeaderCompressedOdd
    · rw [if_pos h2]
      simp
    · rw [if_neg h2, bigIntParity_pos _ (sqrt_candidate_ne_zero (bytesToNat (data.drop 1)))]
      simp

theorem compress_none_iff (pub : ECPublic) : pub.Compress = none ↔ pub.Y = 0 := by
  constructor
  · intro h
    by_contra hy
    rw [ECPublic.Compress, bigIntParity_pos _ hy] at h
    simp at h
  · intro h
    rw [ECPublic.Compress, h, bigIntParity_zero]

theorem deserializeECPublic_ok (data : List Nat)
    (h1 : data.length = 65) (h2 : data.headD 0 = ECHeaderUncompressed) :
    DeserializeECPublic data =
      .ok ⟨bytesToNat ((data.drop 1).take 32), bytesToNat (data.drop 33)⟩ := by
  rw [DeserializeECPublic, if_neg (fun hc => hc (h1.trans rfl)), if_neg (fun hc => hc h2)]
  rfl

theorem deserializeECPublic_error_iff (data : List Nat) :
    DeserializeECPublic data = .error .errInvalidSerializedPublic ↔
      data.length ≠ 65 ∨ data.headD 0 ≠ ECHeaderUncompressed := by
  constructor
  · intro h
    by_contra hc
    push_neg at hc
    rw [deserializeECPublic_ok data hc.1 hc.2] at h
    exact Except.noConfusion h
  · intro h
    rw [DeserializeECPublic]
    by_cases hlen : data.length ≠ 1 + 2 * ECCoordinateSize
    · rw [if_pos hlen]
    · have hlen2 : data.length = 1 + 2 * ECCoordinateSize := not_not.mp hlen
      have hhead : data.headD 0 ≠ ECHeaderUncompressed := by
        rcases h with h | h
        · exact absurd (hlen2.trans rfl) h
        · exact h
      rw [if_neg hlen, if_pos hhead]

theorem deserializeECSecret_ok (data : List Nat)
    (h1 : data.length = 33) (h2 : data.headD 0 = ECHeaderSerializedSecret) :
    DeserializeECSecret data = .ok (bytesToNat (data.drop 1)) := by
  rw [DeserializeECSecret, if_neg (fun hc => hc (h1.trans rfl)), if_neg (fun hc => hc h2)]

theorem deserializeECSecret_error_iff (data : List Nat) :
    DeserializeECSecret data = .error .errInvalidSerializedSecret ↔
      data.length ≠ 33 ∨ data.headD 0 ≠ ECHeaderSerializedSecret := by
  constructor
  · intro h
    by_contra hc
    push_neg at hc
    rw [deserializeECSecret_ok data hc.1 hc.2] at h
    exact Except.noConfusion h
  · intro h
    rw [DeserializeECSecret]
    by_cases hlen : data.length ≠ 1 + ECCoordinateSize
    · rw [if_pos hlen]
    · have hlen2 : data.length = 1 + ECCoordinateSize := not_not.mp hlen
      have hhead : data.headD 0 ≠ ECHeaderSerializedSecret := by
        rcases h with h | h
        · exact absurd (hlen2.trans rfl) h
        · exact h
      rw [if_neg hlen, if_pos hhead]

theorem uncompress_ok (data : List Nat) (h1 : data.length = 33)
    (h2 : data.headD 0 = ECHeaderCompressedEven ∨ data.headD 0 = ECHeaderCompressedOdd) :
    ∃ pub, UncompressECPublic data = some (.ok pub) := by
  have hcond : ¬(data.headD 0 ≠ ECHeaderCompressedEven ∧ data.headD 0 ≠ ECHeaderCompressedOdd) := by
    rcases h2 with h | h
    · exact fun hc => hc.1 h
    · exact fun hc => hc.2 h
  rw [UncompressECPublic, if_neg (fun hc => hc (h1.trans rfl)), if_neg hcond,
    bigIntParity_pos _ (sqrt_candidate_ne_zero (bytesToNat (data.drop 1)))]
  exact ⟨_, rfl⟩

theorem uncompress_error_iff (data : List Nat) :
    UncompressECPublic data = some (.error .errInvalidCompressedPublic) ↔
      data.length ≠ 33 ∨
        (data.headD 0 ≠ ECHeaderCompressedEven ∧ data.headD 0 ≠ ECHeaderCompressedOdd) := by
  constructor
  · intro h
    by_contra hc
    push_neg at hc
    obtain ⟨hlen, himp⟩ := hc
    have hor : data.headD 0 = ECHeaderCompressedEven ∨ data.headD 0 = ECHeaderCompressedOdd := by
      by_cases he : data.headD 0 = ECHeaderCompressedEven
      · exact Or.inl he
      · exact Or.inr (himp he)
    obtain ⟨pub, hok⟩ := uncompress_ok data hlen hor
    rw [hok] at h
    simp at h
  · intro h
    rw [UncompressECPublic]
    by_cases hlen : data.length ≠ 1 + ECCoordinateSize
    · rw [if_pos hlen]
    · have hlen2 : data.length = 1 + ECCoordinateSize := not_not.mp hlen
      have hhead : data.headD 0 ≠ ECHeaderCompressedEven ∧ data.headD 0 ≠ ECHeaderCompressedOdd := by
        rcases h with h | h
        · exact absurd (hlen2.trans rfl) h
        · exact h
      rw [if_neg hlen, if_pos hhead]

theorem natCast_inj_of_lt (a b n : Nat) (ha : a < n) (hb : b < n)
    (h : (a : ZMod n) = (b : ZMod n)) : a = b := by
  haveI : NeZero n := ⟨by omega⟩
  have := congrArg ZMod.val h
  rwa [ZMod.val_natCast_of_lt ha, ZMod.val_natCast_of_lt hb] at this

/-- The square-root candidate computed by `UncompressECPublic` on the X
coordinate of a curve point with nonzero Y is that point's Y coordinate or
its negation mod `P`. -/
theorem sqrt_candidate_cases (x y : Nat) (hy : y < P) (hy0 : y ≠ 0)
    (hcurve : y * y % P = (x ^ 3 + B) % P) :
    uncompressCandidate x = y ∨ uncompressCandidate x = P - y := by
  have hslt : uncompressCandidate x < P := by
    rw [uncompressCandidate]
    exact modExp_lt _ _ _ hP_pos
  have hYne : (y : ZMod P) ≠ 0 := by
    intro h0
    have : y = 0 := natCast_inj_of_lt y 0 P hy hP_pos (by simpa using h0)
    exact hy0 this
  have hcast : ((uncompressCandidate x : Nat) : ZMod P) =
      ((y : ZMod P) * (y : ZMod P)) ^ sqRootExp := by
    rw [uncompressCandidate, zmod_natCast_modExp]
    congr 1
    rw [ZMod.natCast_mod]
    have h3 : ((modExp x bigThree P + B : ℕ) : ZMod P) = ((x ^ 3 + B : ℕ) : ZMod P) := by
      rw [modExp_spec, bigThree]
      push_cast [ZMod.natCast_mod]
      ring
    rw [h3, ← ZMod.natCast_mod, ← hcurve, ZMod.natCast_mod]
    push_cast
    ring
  have hfact2 : 2 * sqRootExp = (P - 1) / 2 + 1 := by norm_num [sqRootExp, P]
  have hZsq : ((y : ZMod P) ^ ((P - 1) / 2)) ^ 2 = 1 := by
    rw [← pow_mul]
    have h2 : (P - 1) / 2 * 2 = P - 1 := by norm_num [P]
    rw [h2]
    exact ZMod.pow_card_sub_one_eq_one hYne
  have hZpm : (y : ZMod P) ^ ((P - 1) / 2) = 1 ∨ (y : ZMod P) ^ ((P - 1) / 2) = -1 := by
    have h0 : ((y : ZMod P) ^ ((P - 1) / 2) - 1) * ((y : ZMod P) ^ ((P - 1) / 2) + 1) = 0 := by
      linear_combination hZsq
    rcases mul_eq_zero.mp h0 with h | h
    · exact Or.inl (by linear_combination h)
    · exact Or.inr (by linear_combination h)
  have hs_eq : ((uncompressCandidate x : Nat) : ZMod P) =
      (y : ZMod P) ^ ((P - 1) / 2) * (y : ZMod P) := by
    rw [hcast, ← pow_two, ← pow_mul, hfact2, pow_succ]
  rcases hZpm with hZ | hZ
  · left
    refine natCast_inj_of_lt _ _ _ hslt hy ?_
    rw [hs_eq, hZ, one_mul]
  · right
    refine natCast_inj_of_lt _ _ _ hslt (by omega) ?_
    rw [hs_eq, hZ, Nat.cast_sub (le_of_lt hy), ZMod.natCast_self]
    ring

theorem compress_spec (pub : ECPublic) (hy0 : pub.Y ≠ 0) :
    pub.Compress = some
      ((if pub.Y % 2 = 0 then ECHeaderCompressedEven else ECHeaderCompressedOdd)
        :: pad (natToBytes pub.X) ECCoordinateSize) := by
  rw [ECPublic.Compress, bigIntParity_pos _ hy0]

theorem P_lt_two_pow : P < 256 ^ 32 := by norm_num [P]

theorem compress_uncompress (pub : ECPublic) (hX : pub.X < P) (hY : pub.Y < P)
    (hy0 : pub.Y ≠ 0) (hcurve : pub.Y * pub.Y % P = (pub.X ^ 3 + B) % P) :
    ∃ l, pub.Compress = some l ∧ l.length = 33 ∧
      l.headD 0 = (if pub.Y % 2 = 0 then ECHeaderCompressedEven else ECHeaderCompressedOdd) ∧
      l.drop 1 = pad (natToBytes pub.X) 32 ∧ bytesToNat (l.drop 1) = pub.X ∧
      UncompressECPublic l = some (.ok pub) := by
  obtain ⟨X, Y⟩ := pub
  simp only at hX hY hy0 hcurve
  have hXbytes : X < 256 ^ 32 := lt_trans hX P_lt_two_pow
  have hbn : bytesToNat (pad (natToBytes X) ECCoordinateSize) = X :=
    bytesToNat_pad_natToBytes _ _ hXbytes
  have hPodd : P % 2 = 1 := by norm_num [P]
  have hcand := sqrt_candidate_cases X Y hY hy0 hcurve
  have hcne := sqrt_candidate_ne_zero X
  set hdr := (if Y % 2 = 0 then ECHeaderCompressedEven else ECHeaderCompressedOdd) with hhdr
  refine ⟨hdr :: pad (natToBytes X) ECCoordinateSize,
    compress_spec ⟨X, Y⟩ hy0, by simp [pad_length, ECCoordinateSize], rfl, rfl,
    by simpa using hbn, ?_⟩
  have hlen : (hdr :: pad (natToBytes X) ECCoordinateSize).length = 1 + ECCoordinateSize := by
    simp [pad_length, ECCoordinateSize]
  have hhead : (hdr :: pad (natToBytes X) ECCoordinateSize).headD 0 = hdr := rfl
  have hdrcase : hdr = ECHeaderCompressedEven ∨ hdr = ECHeaderCompressedOdd := by
    rw [hhdr]
    rcases Nat.mod_two_eq_zero_or_one Y with h | h <;> simp [h]
  have hcond : ¬((hdr :: pad (natToBytes X) ECCoordinateSize).headD 0 ≠ ECHeaderCompressedEven ∧
      (hdr :: pad (natToBytes X) ECCoordinateSize).headD 0 ≠ ECHeaderCompressedOdd) := by
    rw [hhead]
    rcases hdrcase with h | h
    · exact fun hc => hc.1 h
    · exact fun hc => hc.2 h
  rw [UncompressECPublic, if_neg (fun hc => hc hlen), if_neg hcond]
  have hdrop : (hdr :: pad (natToBytes X) ECCoordinateSize).drop 1 =
      pad (natToBytes X) ECCoordinateSize := rfl
  rw [hdrop, hbn, bigIntParity_pos _ hcne, hhead]
  have hdrpar : hdr % 2 = Y % 2 := by
    rw [hhdr]
    rcases Nat.mod_two_eq_zero_or_one Y with h | h <;> simp [h, ECHeaderCompressedEven,
      ECHeaderCompressedOdd]
  rcases hcand with hc | hc
  · have hxor : Nat.xor (uncompressCandidate X % 2) (hdr % 2) = 0 := by
      rw [hc, hdrpar]
      rcases Nat.mod_two_eq_zero_or_one Y with h | h <;> rw [h] <;> decide
    show some (Except.ok (⟨X,
        if Nat.xor (uncompressCandidate X % 2) (hdr % 2) ≠ 0 then
          (P - uncompressCandidate X) % P
        else uncompressCandidate X⟩ : ECPublic)) =
      some (Except.ok (⟨X, Y⟩ : ECPublic) : Except ECKeyError ECPublic)
    rw [if_neg (fun hf => hf hxor), hc]
  · have hxor : Nat.xor (uncompressCandidate X % 2) (hdr % 2) ≠ 0 := by
      rw [hc, hdrpar]
      rcases Nat.mod_two_eq_zero_or_one Y with h | h
      · have h2 : (P - Y) % 2 = 1 := by omega
        rw [h, h2]
        decide
      · have h2 : (P - Y) % 2 = 0 := by omega
        rw [h, h2]
        decide
    show some (Except.ok (⟨X,
        if Nat.xor (uncompressCandidate X % 2) (hdr % 2) ≠ 0 then
          (P - uncompressCandidate X) % P
        else uncompressCandidate X⟩ : ECPublic)) =
      some (Except.ok (⟨X, Y⟩ : ECPublic) : Except ECKeyError ECPublic)
    rw [if_pos hxor, hc]
    have hsub : P - (P - Y) = Y := Nat.sub_sub_self (le_of_lt hY)
    rw [hsub, Nat.mod_eq_of_lt hY]

/-- C3: for every curve point with nonzero Y, `Compress` yields 33 bytes
whose first byte is `0x02` for even Y and `0x03` for odd Y followed by the
32-byte big-endian X, and `UncompressECPublic` of that encoding returns the
original point (same X, same Y, parity preserved). -/
theorem C3_compress_uncompress_roundtrip (pub : ECPublic) (hX : pub.X < P)
    (hY : pub.Y < P) (hy0 : pub.Y ≠ 0)
    (hcurve : pub.Y * pub.Y % P = (pub.X ^ 3 + B) % P) :
    ∃ l, pub.Compress = some l ∧ l.length = 33 ∧
      l.headD 0 = (if pub.Y % 2 = 0 then ECHeaderCompressedEven else ECHeaderCompressedOdd) ∧
      l.drop 1 = pad (natToBytes pub.X) 32 ∧ bytesToNat (l.drop 1) = pub.X ∧
      UncompressECPublic l = some (.ok pub) :=
  compress_uncompress pub hX hY hy0 hcurve

/-- C3 witness: the roundtrip at the secp256k1 generator point G (whose Y is
even). -/
theorem C3_witness :
    ∃ l, ECPublic.Compress
        ⟨55066263022277343669578718895168534326250603453777594175500187360389116729240,
         32670510020758816978083085130507043184471273380659243275938904335757337482424⟩ =
        some l ∧
      l.length = 33 ∧
      l.headD 0 = (if 32670510020758816978083085130507043184471273380659243275938904335757337482424 % 2 = 0
        then ECHeaderCompressedEven else ECHeaderCompressedOdd) ∧
      l.drop 1 = pad (natToBytes
        55066263022277343669578718895168534326250603453777594175500187360389116729240) 32 ∧
      bytesToNat (l.drop 1) =
        55066263022277343669578718895168534326250603453777594175500187360389116729240 ∧
      UncompressECPublic l = some (.ok
        ⟨55066263022277343669578718895168534326250603453777594175500187360389116729240,
         32670510020758816978083085130507043184471273380659243275938904335757337482424⟩) :=
  C3_compress_uncompress_roundtrip _ (by norm_num [P]) (by norm_num [P]) (by norm_num)
    (by decide)

/-- C7: each key decoder fails with its invalid-encoding error exactly when
the input has the wrong length or wrong header byte (a `nil` input has length
0, covered by the length disjunct), and succeeds on every other input; no
decoder checks that the decoded point lies on the curve (success depends only
on length and header). -/
theorem C7_decoder_error_characterization (data : List Nat) :
    (DeserializeECPublic data = .error .errInvalidSerializedPublic ↔
      data.length ≠ 65 ∨ data.headD 0 ≠ ECHeaderUncompressed) ∧
    (data.length = 65 → data.headD 0 = ECHeaderUncompressed →
      ∃ pub, DeserializeECPublic data = .ok pub) ∧
    (UncompressECPublic data = some (.error .errInvalidCompressedPublic) ↔
      data.length ≠ 33 ∨
        (data.headD 0 ≠ ECHeaderCompressedEven ∧ data.headD 0 ≠ ECHeaderCompressedOdd)) ∧
    (data.length = 33 →
      (data.headD 0 = ECHeaderCompressedEven ∨ data.headD 0 = ECHeaderCompressedOdd) →
      ∃ pub, UncompressECPublic data = some (.ok pub)) ∧
    (DeserializeECSecret data = .error .errInvalidSerializedSecret ↔
      data.length ≠ 33 ∨ data.headD 0 ≠ ECHeaderSerializedSecret) ∧
    (data.length = 33 → data.headD 0 = ECHeaderSerializedSecret →
      ∃ r, DeserializeECSecret data = .ok r) := by
  refine ⟨deserializeECPublic_error_iff data, ?_, uncompress_error_iff data, ?_,
    deserializeECSecret_error_iff data, ?_⟩
  · intro h1 h2
    exact ⟨_, deserializeECPublic_ok data h1 h2⟩
  · intro h1 h2
    exact uncompress_ok data h1 h2
  · intro h1 h2
    exact ⟨_, deserializeECSecret_ok data h1 h2⟩

/-- C7 witness: concrete well-formed inputs on which each decoder succeeds. -/
theorem C7_witness :
    (∃ pub, DeserializeECPublic (ECHeaderUncompressed :: List.replicate 64 7) = .ok pub) ∧
    (∃ pub, UncompressECPublic (ECHeaderCompressedOdd :: List.replicate 32 0) =
      some (.ok pub)) ∧
    (∃ r, DeserializeECSecret (ECHeaderSerializedSecret :: List.replicate 32 5) = .ok r) :=
  ⟨(C7_decoder_error_characterization _).2.1 (by simp) rfl,
   (C7_decoder_error_characterization _).2.2.2.1 (by simp) (Or.inr rfl),
   (C7_decoder_error_characterization _).2.2.2.2.2 (by simp) rfl⟩

/-- C10 counterexample: contrary to the claim that `UncompressECPublic` is
not total, the modelled panic branch is unreachable on every input — there is
no input at all (in particular no 33-byte well-headed one) on which it
panics, because `x ^ 3 + B mod P` never vanishes (minus seven is not a cube
mod `P`). -/
theorem C10_counterexample : ¬ ∃ data : List Nat, UncompressECPublic data = none := by
  rintro ⟨data, hpanic⟩
  exact uncompress_never_panics data hpanic

/-- C10 amended: `Compress` is indeed partial — `bigIntParity` indexes the
last byte of `big.Int.Bytes()`, which is empty iff the value is zero, so
`Compress` panics exactly on points whose Y coordinate is zero — but
`UncompressECPublic` is total: its square-root candidate is zero only if
`x ^ 3 + b ≡ 0 mod P`, which has no solution. -/
theorem C10_amended (pub : ECPublic) (data : List Nat) :
    (pub.Compress = none ↔ pub.Y = 0) ∧ UncompressECPublic data ≠ none :=
  ⟨compress_none_iff pub, uncompress_never_panics data⟩

/-- C10 witness: the concrete point (1, 0) makes `Compress` panic, and a
concrete well-headed 33-byte input does not make `UncompressECPublic` panic. -/
theorem C10_witness :
    ECPublic.Compress ⟨1, 0⟩ = none ∧
    UncompressECPublic (ECHeaderCompressedEven :: List.replicate 32 1) ≠ none :=
  ⟨(C10_amended ⟨1, 0⟩ []).1.mpr rfl,
   (C10_amended ⟨1, 0⟩ (ECHeaderCompressedEven :: List.replicate 32 1)).2⟩

/-- C5 witness at the concrete point (1, 2). -/
theorem C5_witness :
    (ECPublic.Serialize ⟨1, 2⟩).length = 65 ∧
    (ECPublic.Serialize ⟨1, 2⟩).headD 0 = ECHeaderUncompressed ∧
    ((ECPublic.Serialize ⟨1, 2⟩).drop 1).take 32 =
      List.replicate (32 - (natToBytes 1).length) 0 ++ natToBytes 1 ∧
    (ECPublic.Serialize ⟨1, 2⟩).drop 33 =
      List.replicate (32 - (natToBytes 2).length) 0 ++ natToBytes 2 ∧
    bytesToNat (((ECPublic.Serialize ⟨1, 2⟩).drop 1).take 32) = 1 ∧
    bytesToNat ((ECPublic.Serialize ⟨1, 2⟩).drop 33) = 2 ∧
    pad (natToBytes 1) 32 = List.replicate 31 0 ++ [1] :=
  C5_serialize_layout ⟨1, 2⟩ (by norm_num) (by norm_num)

end ECKey

namespace Schnorr

/-- The secp256k1 group order `s256.N`. -/
def N : Nat := 115792089237316195423570985008687907852837564279074904382605163141518161494337

/-- The entropy size constant of `ecschnorr.go`. -/
def ECSchnorrEntropySize : Nat := 32

/-- The byte size of a `crypto.Hash`. Modelled from the spec: the `crypto`
package's `Hash`/`HashBytes` are not under src/; the spec fixes a
"hash function H producing 32-byte digests". -/
def HashSize : Nat := 32

/-- Modelled from the spec: the external secp256k1 library (spec §1 assumes
"a library providing secp256k1 with scalar-base-mult, scalar-mult, and point
addition"; §4.1 fixes "Curve: secp256k1 with generator G, order n"). The
curve group is the cyclic group of prime order `N` generated by `G`; a point
is represented by its discrete logarithm base `G`, a natural number below
`N`. `ScalarBaseMult` maps big-endian bytes `k` to the point `[k]G`. -/
def scalarBaseMult (k : List Nat) : Nat := bytesToNat k % N

/-- Modelled from the spec: `ScalarMult` of a point by big-endian bytes `e`
in the discrete-logarithm representation. -/
def scalarMult (p : Nat) (e : List Nat) : Nat := bytesToNat e * p % N

/-- Modelled from the spec: `s256.Add`, point addition, in the
discrete-logarithm representation. -/
def pointAdd (p q : Nat) : Nat := (p + q) % N

/-- Modelled from the spec: `ECPublic.Serialize` applied to curve points.
The uncompressed encoding `0x04 || X(32) || Y(32)` is injective on points,
which is all that sign/verify rely on; the discrete-logarithm model
serializes the point index in the same 65-byte layout. -/
def serializePoint (p : Nat) : List Nat :=
  ECKey.ECHeaderUncompressed :: pad (natToBytes p) (2 * ECKey.ECCoordinateSize)

/-- Model of `ComputeECPublic` in the group model: the point `[r]G`. -/
def ComputeECPublic (rBytes : List Nat) : Nat := scalarBaseMult rBytes

/-- Go's `ECSecret` in the group model: the embedded public point and the
secret scalar `R`. -/
structure ECSecret where
  pub : Nat
  R : Nat

/-- Go's `ECSchnorrSig`: the challenge hash `E` and the scalar bytes `S`. -/
structure ECSchnorrSig where
  E : List Nat
  S : List Nat

/-- The error value of `ecschnorr.go`. -/
inductive SchnorrError where
  | errECSchnorrVerify
deriving DecidableEq

/-- Model of Go's `subtle.ConstantTimeCompare`: 0 when the lengths differ,
otherwise 1 exactly when the accumulated OR of the bytewise XORs is zero. -/
def constantTimeCompare (x y : List Nat) : Nat :=
  if x.length = y.length then
    if (List.zipWith (fun a b => a ^^^ b) x y).foldl (fun v d => v ||| d) 0 = 0 then 1 else 0
  else 0

/-- Model of `ECSchnorrSign` on the success path of `RandBytes`: the 32
random bytes `k` drawn are a parameter. Copying `s.Bytes()` into the zeroed
32-byte `S` array at offset `HashSize - len(sBytes)` equals left-padding to
32 bytes, since `0 ≤ s < N < 2^256`; `big.Int.Mod` with a positive modulus
is Euclidean, matching `Int.emod`. -/
def ECSchnorrSign (H : List Nat → List Nat) (data : List Nat) (secKey : ECSecret)
    (k : List Nat) : ECSchnorrSig :=
  { E := H (data ++ serializePoint (scalarBaseMult k)),
    S := pad (natToBytes (((bytesToNat k : Int) -
        (bytesToNat (H (data ++ serializePoint (scalarBaseMult k))) : Int) *
          (secKey.R : Int)) % (N : Int)).toNat) HashSize }

/-- Model of `ECSchnorrSig.Verify`: recompute `K' = sG + eP`, serialize,
rehash, and constant-time-compare against the signature's `E`; `none` models
a nil error (acceptance). -/
def ECSchnorrSig.Verify (H : List Nat → List Nat) (sig : ECSchnorrSig) (data : List Nat)
    (pubKey : Nat) : Option SchnorrError :=
  if constantTimeCompare
      (H (data ++ serializePoint (pointAdd (scalarBaseMult sig.S) (scalarMult pubKey sig.E))))
      sig.E = 1 then none
  else some .errECSchnorrVerify

theorem lor_eq_zero_iff (a b : Nat) : a ||| b = 0 ↔ a = 0 ∧ b = 0 := by
  constructor
  · intro h
    constructor
    · by_contra ha
      obtain ⟨i, hi⟩ := Nat.exists_most_significant_bit ha
      have h2 := congrArg (fun t => Nat.testBit t i) h
      simp [Nat.testBit_lor, hi.1] at h2
    · by_contra hb
      obtain ⟨i, hi⟩ := Nat.exists_most_significant_bit hb
      have h2 := congrArg (fun t => Nat.testBit t i) h
      simp [Nat.testBit_lor, hi.1] at h2
  · rintro ⟨rfl, rfl⟩
    rfl

theorem foldl_lor_eq_zero (l : List Nat) :
    ∀ acc, l.foldl (fun v d => v ||| d) acc = 0 ↔ acc = 0 ∧ ∀ b ∈ l, b = 0 := by
  induction l with
  | nil => simp
  | cons a t ih =>
    intro acc
    rw [List.foldl_cons, ih (acc ||| a)]
    rw [lor_eq_zero_iff]
    constructor
    · rintro ⟨⟨h1, h2⟩, h3⟩
      exact ⟨h1, by simpa [h2] using h3⟩
    · rintro ⟨h1, h2⟩
      exact ⟨⟨h1, h2 a (List.mem_cons_self a t)⟩, fun b hb => h2 b (List.mem_cons_of_mem a hb)⟩

theorem zipWith_xor_zero_iff : ∀ (x y : List Nat), x.length = y.length →
    ((∀ b ∈ List.zipWith (fun a b => a ^^^ b) x y, b = 0) ↔ x = y) := by
  intro x
  induction x with
  | nil =>
    intro y hlen
    cases y with
    | nil => simp
    | cons c t2 => simp at hlen
  | cons a t ih =>
    intro y hlen
    cases y with
    | nil => simp at hlen
    | cons c t2 =>
      simp only [List.zipWith_cons_cons, List.mem_cons, forall_eq_or_imp, List.cons.injEq]
      rw [show (∀ b ∈ List.zipWith (fun a b => a ^^^ b) t t2, b = 0) ↔ t = t2 from
        ih t2 (by simpa using hlen)]
      rw [Nat.xor_eq_zero]

theorem constantTimeCompare_eq_one_iff (x y : List Nat) (hlen : x.length = y.length) :
    constantTimeCompare x y = 1 ↔ x = y := by
  rw [constantTimeCompare, if_pos hlen]
  by_cases h : (List.zipWith (fun a b => a ^^^ b) x y).foldl (fun v d => v ||| d) 0 = 0
  · rw [if_pos h]
    have hz := (foldl_lor_eq_zero _ 0).mp h
    exact ⟨fun _ => (zipWith_xor_zero_iff x y hlen).mp hz.2, fun _ => rfl⟩
  · rw [if_neg h]
    constructor
    · intro h0
      exact absurd h0 (by norm_num)
    · intro hxy
      exfalso
      apply h
      rw [foldl_lor_eq_zero]
      exact ⟨rfl, (zipWith_xor_zero_iff x y hlen).mpr hxy⟩

theorem N_int_pos : (0 : Int) < (N : Int) := by norm_num [N]

theorem emod_toNat_lt (v : Int) : (v % (N : Int)).toNat < N := by
  have h0 : 0 ≤ v % (N : Int) := Int.emod_nonneg _ (by norm_num [N])
  have h1 : v % (N : Int) < (N : Int) := Int.emod_lt_of_pos _ N_int_pos
  omega

theorem bytesToNat_S (v : Int) :
    bytesToNat (pad (natToBytes ((v % (N : Int)).toNat)) HashSize) = (v % (N : Int)).toNat :=
  ECKey.bytesToNat_pad_natToBytes _ _
    (lt_trans (emod_toNat_lt v) (by norm_num [N, HashSize]))

/-- C6: every signature produced by `ECSchnorrSign` stores in `S` exactly the
scalar `(k − e·r) mod n`, and its big-endian value is strictly below the
group order `N`. -/
theorem C6_signature_scalar_reduced (H : List Nat → List Nat) (data : List Nat)
    (sec : ECSecret) (k : List Nat) :
    bytesToNat (ECSchnorrSign H data sec k).S < N ∧
    bytesToNat (ECSchnorrSign H data sec k).S =
      (((bytesToNat k : Int) -
        (bytesToNat (ECSchnorrSign H data sec k).E : Int) * (sec.R : Int))
          % (N : Int)).toNat := by
  simp only [ECSchnorrSign]
  rw [bytesToNat_S]
  exact ⟨emod_toNat_lt _, rfl⟩

/-- C1: signing any message with any nonce draw and a consistent secret key
verifies: the recomputed point `sG + eP` equals the signer's nonce point, so
the recomputed challenge matches the stored one. -/
theorem C1_schnorr_sign_verify (H : List Nat → List Nat) (data k : List Nat)
    (sec : ECSecret) (hpub : sec.pub = ComputeECPublic (natToBytes sec.R))
    (hk : k.length = ECSchnorrEntropySize) :
    (ECSchnorrSign H data sec k).Verify H data sec.pub = none := by
  have hSval : bytesToNat (ECSchnorrSign H data sec k).S =
      (((bytesToNat k : Int) -
        (bytesToNat (H (data ++ serializePoint (scalarBaseMult k))) : Int) *
          (sec.R : Int)) % (N : Int)).toNat := by
    simp only [ECSchnorrSign]
    rw [bytesToNat_S]
  have hSlt : (((bytesToNat k : Int) -
      (bytesToNat (H (data ++ serializePoint (scalarBaseMult k))) : Int) *
        (sec.R : Int)) % (N : Int)).toNat < N := emod_toNat_lt _
  have hpub2 : sec.pub = sec.R % N := by
    rw [hpub, ComputeECPublic, scalarBaseMult, bytesToNat_natToBytes]
  have hEval : bytesToNat (ECSchnorrSign H data sec k).E =
      bytesToNat (H (data ++ serializePoint (scalarBaseMult k))) := rfl
  have key : ((((bytesToNat k : Int) -
      (bytesToNat (H (data ++ serializePoint (scalarBaseMult k))) : Int) *
        (sec.R : Int)) % (N : Int)).toNat +
      bytesToNat (H (data ++ serializePoint (scalarBaseMult k))) * (sec.R % N) % N) % N =
      bytesToNat k % N := by
    have hca : (((((bytesToNat k : Int) -
        (bytesToNat (H (data ++ serializePoint (scalarBaseMult k))) : Int) *
          (sec.R : Int)) % (N : Int)).toNat : Nat) : Int) =
        ((bytesToNat k : Int) -
          (bytesToNat (H (data ++ serializePoint (scalarBaseMult k))) : Int) *
            (sec.R : Int)) % (N : Int) :=
      Int.toNat_of_nonneg (Int.emod_nonneg _ (by norm_num [N]))
    have hgoal : ∀ a b : Nat, (a : Int) = (b : Int) → a = b := fun a b h => by
      exact_mod_cast h
    apply hgoal
    push_cast
    rw [hca]
    have h1 := Int.emod_emod_of_dvd ((bytesToNat k : Int) -
      (bytesToNat (H (data ++ serializePoint (scalarBaseMult k))) : Int) * (sec.R : Int))
      (dvd_refl (N : Int))
    have hR := Int.emod_emod_of_dvd (sec.R : Int) (dvd_refl (N : Int))
    have h2 : (bytesToNat (H (data ++ serializePoint (scalarBaseMult k))) : Int) *
        ((sec.R : Int) % (N : Int)) % (N : Int) ≡
        (bytesToNat (H (data ++ serializePoint (scalarBaseMult k))) : Int) * (sec.R : Int)
          [ZMOD (N : Int)] := by
      have hmul := Int.ModEq.mul_left
        (bytesToNat (H (data ++ serializePoint (scalarBaseMult k))) : Int) hR
      exact (Int.emod_emod_of_dvd _ (dvd_refl (N : Int))).trans hmul
    have h3 := Int.ModEq.add h1 h2
    have h4 : ((bytesToNat k : Int) -
        (bytesToNat (H (data ++ serializePoint (scalarBaseMult k))) : Int) * (sec.R : Int)) +
        (bytesToNat (H (data ++ serializePoint (scalarBaseMult k))) : Int) * (sec.R : Int) =
        (bytesToNat k : Int) := by ring
    rw [h4] at h3
    exact h3
  have hpoint : pointAdd (scalarBaseMult (ECSchnorrSign H data sec k).S)
      (scalarMult sec.pub (ECSchnorrSign H data sec k).E) = scalarBaseMult k := by
    rw [pointAdd, scalarBaseMult, scalarMult, hSval, hEval, hpub2,
      Nat.mod_eq_of_lt hSlt, scalarBaseMult]
    exact key
  rw [ECSchnorrSig.Verify, hpoint]
  have hok : constantTimeCompare (H (data ++ serializePoint (scalarBaseMult k)))
      (ECSchnorrSign H data sec k).E = 1 :=
    (constantTimeCompare_eq_one_iff (H (data ++ serializePoint (scalarBaseMult k)))
      (ECSchnorrSign H data sec k).E rfl).mpr rfl
  rw [if_pos hok]

/-- C1 witness: a concrete hash stand-in, message, secret scalar 5 and
all-zero nonce draw verify. -/
theorem C1_witness :
    (ECSchnorrSign (fun _ => List.replicate 32 0) []
      ⟨ComputeECPublic (natToBytes 5), 5⟩ (List.replicate 32 0)).Verify
      (fun _ => List.replicate 32 0) [] (ComputeECPublic (natToBytes 5)) = none :=
  C1_schnorr_sign_verify _ _ _ _ rfl (by decide)

/-- C2: verification recomputes the challenge from `sG + eP` and accepts
exactly when it equals the signature's `E` component under the constant-time
byte comparison, failing with the distinguished verify error otherwise. -/
theorem C2_verify_challenge_characterization (H : List Nat → List Nat)
    (hH : ∀ d, (H d).length = 32) (sig : ECSchnorrSig) (hE : sig.E.length = 32)
    (data : List Nat) (pubKey : Nat) :
    (sig.Verify H data pubKey = none ↔
      H (data ++ serializePoint (pointAdd (scalarBaseMult sig.S) (scalarMult pubKey sig.E)))
        = sig.E) ∧
    (sig.Verify H data pubKey = some .errECSchnorrVerify ↔
      H (data ++ serializePoint (pointAdd (scalarBaseMult sig.S) (scalarMult pubKey sig.E)))
        ≠ sig.E) := by
  have hlen : (H (data ++ serializePoint (pointAdd (scalarBaseMult sig.S)
      (scalarMult pubKey sig.E)))).length = sig.E.length := by rw [hH, hE]
  have hiff := constantTimeCompare_eq_one_iff _ _ hlen
  rw [ECSchnorrSig.Verify]
  by_cases hc : constantTimeCompare
      (H (data ++ serializePoint (pointAdd (scalarBaseMult sig.S) (scalarMult pubKey sig.E))))
      sig.E = 1
  · rw [if_pos hc]
    exact ⟨⟨fun _ => hiff.mp hc, fun _ => rfl⟩,
      ⟨fun h0 => absurd h0 (by simp), fun hne => absurd (hiff.mp hc) hne⟩⟩
  · rw [if_neg hc]
    exact ⟨⟨fun h0 => absurd h0 (by simp), fun heq => absurd (hiff.mpr heq) hc⟩,
      ⟨fun _ => fun heq => hc (hiff.mpr heq), fun _ => rfl⟩⟩

/-- C2 witness: at a concrete hash stand-in and signature the characterization
yields acceptance. -/
theorem C2_witness :
    ECSchnorrSig.Verify (fun _ => List.replicate 32 0)
      ⟨List.replicate 32 0, List.replicate 32 0⟩ [] 0 = none :=
  ((C2_verify_challenge_characterization (fun _ => List.replicate 32 0)
      (fun _ => by simp) ⟨List.replicate 32 0, List.replicate 32 0⟩ (by simp) [] 0).1).mpr
    rfl

end Schnorr

namespace HostDB

/-- The `scanPoolSize` constant of `hostdb.go`: the buffer size of the
channel holding hosts that need to be scanned. -/
def scanPoolSize : Nat := 1000

/-- A buffered Go channel, modelled as its buffer capacity plus queued
contents. -/
structure BoundedChan (α : Type) where
  cap : Nat
  buf : List α
deriving DecidableEq

/-- Modelled from the spec: the scheduler's enqueue onto the scan pool is
non-blocking and "drops on overflow at enqueue" (spec §4.4, §5); the
enqueueing scan-scheduler code is not under src/. A send appends when the
buffer is below capacity and otherwise leaves the channel unchanged. -/
def chanTrySend {α : Type} (ch : BoundedChan α) (e : α) : BoundedChan α :=
  if ch.buf.length < ch.cap then { ch with buf := ch.buf ++ [e] } else ch

/-- The HostDB state relevant to these claims: the scan pool channel. The
other fields initialized by `newHostDB` (empty contract/host maps and the
injected dependencies) play no role in the queue-bound or construction-error
claims and are omitted. -/
structure HostDB where
  scanPool : BoundedChan Unit

/-- Model of `newHostDB` (`hostdb.go`): builds the `HostDB` with
`scanPool := make(chan *hostEntry, scanPoolSize)`, i.e. an empty buffer of
capacity `scanPoolSize`. -/
def newHostDB : HostDB := { scanPool := { cap := scanPoolSize, buf := [] } }

/-- The distinct construction errors of `hostdb.go`'s `New`, plus markers for
the pass-through errors of its subsequent effectful steps. -/
inductive HostDBError where
  | errNilCS
  | errNilWallet
  | errNilTpool
  | errMkdir
  | errLogger
  | errLoad
deriving DecidableEq

/-- The side effects `New` can perform, in program order. -/
inductive Effect where
  | mkdirAll
  | newLogger
  | load
  | spawnScanThreads
  | subscribeConsensus
deriving DecidableEq

/-- Outcomes of the effectful steps of `New` (oracles for `os.MkdirAll`,
`newLogger`, and `hdb.load`, where `loadOk` also covers the tolerated
`os.IsNotExist` case). -/
structure NewEnv where
  mkdirOk : Bool
  loggerOk : Bool
  loadOk : Bool

/-- Model of `New` (`modules/renter/hostdb/hostdb.go`; the variant in
src/unnamed/part_001 has the identical nil-check prefix). Go `nil` interface
arguments become `none`; the second component records the side effects
performed, in order. -/
def New (cs wallet tpool : Option Unit) (env : NewEnv) :
    Except HostDBError HostDB × List Effect :=
  if cs.isNone then (.error .errNilCS, [])
  else if wallet.isNone then (.error .errNilWallet, [])
  else if tpool.isNone then (.error .errNilTpool, [])
  else if !env.mkdirOk then (.error .errMkdir, [.mkdirAll])
  else if !env.loggerOk then (.error .errLogger, [.mkdirAll, .newLogger])
  else if !env.loadOk then (.error .errLoad, [.mkdirAll, .newLogger, .load])
  else (.ok newHostDB,
    [.mkdirAll, .newLogger, .load, .spawnScanThreads, .subscribeConsensus])

/-- C8: `New` fails with the distinct nil-dependency error and performs no
side effect whenever the consensus set, wallet, or transaction pool is nil,
checked in that order. -/
theorem C8_new_nil_dependency_checks (cs wallet tpool : Option Unit) (env : NewEnv) :
    (cs = none → New cs wallet tpool env = (.error .errNilCS, [])) ∧
    (cs ≠ none → wallet = none → New cs wallet tpool env = (.error .errNilWallet, [])) ∧
    (cs ≠ none → wallet ≠ none → tpool = none →
      New cs wallet tpool env = (.error .errNilTpool, [])) ∧
    (HostDBError.errNilCS ≠ HostDBError.errNilWallet ∧
     HostDBError.errNilWallet ≠ HostDBError.errNilTpool ∧
     HostDBError.errNilCS ≠ HostDBError.errNilTpool) := by
  refine ⟨?_, ?_, ?_, by decide⟩
  · intro h
    subst h
    rfl
  · intro hcs hw
    subst hw
    cases cs with
    | none => exact absurd rfl hcs
    | some u => rfl
  · intro hcs hw ht
    subst ht
    cases cs with
    | none => exact absurd rfl hcs
    | some u =>
      cases wallet with
      | none => exact absurd rfl hw
      | some v => rfl

/-- C8 witness: the three nil-argument cases at concrete inputs. -/
theorem C8_witness :
    New none (some ()) (some ()) ⟨true, true, true⟩ = (.error .errNilCS, []) ∧
    New (some ()) none (some ()) ⟨true, true, true⟩ = (.error .errNilWallet, []) ∧
    New (some ()) (some ()) none ⟨true, true, true⟩ = (.error .errNilTpool, []) :=
  ⟨(C8_new_nil_dependency_checks none (some ()) (some ()) ⟨true, true, true⟩).1 rfl,
   (C8_new_nil_dependency_checks (some ()) none (some ()) ⟨true, true, true⟩).2.1
     (by simp) rfl,
   (C8_new_nil_dependency_checks (some ()) (some ()) none ⟨true, true, true⟩).2.2.1
     (by simp) (by simp) rfl⟩

/-- C9: the scan queue is bounded with capacity exactly 1000: `newHostDB`
creates the scan pool with buffer size `scanPoolSize = 1000`, and a
non-blocking enqueue never grows the buffer beyond the capacity — on a full
queue it leaves the channel unchanged. -/
theorem C9_scan_pool_bounded :
    scanPoolSize = 1000 ∧
    newHostDB.scanPool.cap = scanPoolSize ∧
    newHostDB.scanPool.buf.length = 0 ∧
    (∀ (ch : BoundedChan Unit) (e : Unit), ch.buf.length ≤ ch.cap →
      ((chanTrySend ch e).buf.length ≤ ch.cap ∧
       (chanTrySend ch e).cap = ch.cap ∧
       (ch.buf.length = ch.cap → chanTrySend ch e = ch))) := by
  refine ⟨rfl, rfl, rfl, ?_⟩
  intro ch e hle
  rw [chanTrySend]
  by_cases h : ch.buf.length < ch.cap
  · rw [if_pos h]
    refine ⟨?_, rfl, fun heq => absurd heq (by omega)⟩
    simp only [List.length_append, List.length_cons, List.length_nil]
    omega
  · rw [if_neg h]
    exact ⟨hle, rfl, fun _ => rfl⟩

/-- C9 witness: enqueueing on a full two-slot channel leaves it unchanged. -/
theorem C9_witness :
    (chanTrySend (⟨2, [(), ()]⟩ : BoundedChan Unit) ()).buf.length ≤ 2 ∧
    (chanTrySend (⟨2, [(), ()]⟩ : BoundedChan Unit) ()).cap = 2 ∧
    (([(), ()] : List Unit).length = 2 →
      chanTrySend (⟨2, [(), ()]⟩ : BoundedChan Unit) () = ⟨2, [(), ()]⟩) :=
  C9_scan_pool_bounded.2.2.2 ⟨2, [(), ()]⟩ () (by decide)

end HostDB

end Sia
